import Mathlib

/-!
Verification development for the bperm repository: a session/authentication
core providing tamper-evident session tokens (`bcookie`), multi-algorithm
password verification, password-strength policy, path-prefix permission
classification, and confirmation-code generation.

Conventions of the embedding:
* Go strings handled as raw byte sequences (the `bcookie` token machinery)
  are embedded as `List Nat` with bytes `< 256`; strings used only as opaque
  identifiers or hashes are embedded as Lean `String`; URL paths and
  passwords where per-character structure matters are `List Char`.
* The external primitives (bcrypt from `golang.org/x/crypto/bcrypt`, the
  HMAC-SHA1 keyed MAC from `crypto/hmac`, the random generator from
  `github.com/bperm/randomstring`) are pure functions of their inputs and are
  taken as explicit function parameters.
* The key-value user store is a pure snapshot `String → Option User`; a `Put`
  is a pointwise functional update.
-/

namespace Bperm

/-- The User record, from `backend/model.go`. -/
structure User where
  email : String
  username : String
  name : String
  lastName : String
  password : String
  photoUrl : String
  confirmed : Bool
  confirmationCode : String
  admin : Bool
  loggedin : Bool
  active : Bool
deriving Repr, DecidableEq

/-- A pure snapshot of the injected user store (`backend.Db`): key to record. -/
abbrev Store : Type := String → Option User

/-- Writing one record into the store (`Datastore.Put` from
`userstore/gdatastore.go`, as a functional update of the snapshot). -/
def storePut (store : Store) (key : String) (user : User) : Store :=
  fun k => if k = key then some user else store k

/-- Function `UserState.CheckUserPassword` from `userstate.go` (main variant;
the legacy `UserState.IsUserPassword` has the identical structure).  The
`HasUser`/`GetUser` pair collapses to one lookup of the pure store snapshot.
`bcryptVerify` models the external `correctBcrypt` primitive
(`bcrypt.CompareHashAndPassword == nil`).  The `switch` on
`state.passwordAlgorithm` has the single case `"bcrypt", "bcrypt+"`; every
other algorithm value falls through to `return false`. -/
def checkUserPassword (store : Store) (passwordAlgorithm : String)
    (bcryptVerify : String → String → Bool) (username password : String) : Bool :=
  match store username with
  | none => false
  | some user =>
    if user.password.length = 0 then false
    else if passwordAlgorithm = "bcrypt" ∨ passwordAlgorithm = "bcrypt+" then
      bcryptVerify user.password password
    else false

/-- Modelled from the spec: the `bcrypt+` verification described in §4.1 —
"verify by first checking is this stored value shaped like a sha256 digest —
a fixed-length heuristic — and if so attempt sha256 verification for backward
compatibility, otherwise attempt bcrypt verification".  A sha256 hex digest
has the fixed length 64.  No such code exists under `src/`; this definition
follows the spec's words and is compared against `checkUserPassword`. -/
def specBcryptPlusVerify (sha256Verify bcryptVerify : String → String → Bool)
    (storedHash password : String) : Bool :=
  if storedHash.length = 64 then sha256Verify storedHash password
  else bcryptVerify storedHash password

/-- Error cases of the main `UserState.AddUser` from `userstate.go`. -/
inductive AddUserError where
  | missingEmail
  | missingUsername
  | missingPassword
  | passwordNotAllowed
  | hashingFailure
deriving Repr, DecidableEq

/-- Function `UserState.AddUser` from `userstate.go` (main variant): validates
required fields, checks the password policy, hashes with bcrypt, replaces the
`Password` field by the hash and stores the record under the email key.
`pwAllowed` models `IsPasswordAllowed` (`true` = no policy error) and
`hashBcrypt` the external bcrypt hash (`none` = primitive error). -/
def addUser (pwAllowed : String → String → Bool) (hashBcrypt : String → Option String)
    (store : Store) (user : User) : Except AddUserError Store :=
  if user.email = "" then .error .missingEmail
  else if user.username = "" then .error .missingUsername
  else if user.password = "" then .error .missingPassword
  else if !(pwAllowed user.username user.password) then .error .passwordNotAllowed
  else
    match hashBcrypt user.password with
    | none => .error .hashingFailure
    | some h => .ok (storePut store user.email { user with password := h })

/-- Function `UserState.AddUser` from `userstate.go` (legacy variant, lines
671–680): stores the caller-supplied record as-is under its email key — no
field validation, no password policy check, and no hashing. -/
def addUserLegacy (store : Store) (user : User) : Store :=
  storePut store user.email user

/-- The UserProperty enumeration from `userstate.go`. -/
inductive UserProperty where
  | Admin
  | Confirmed
  | ConfirmationCode
  | Loggedin
  | Password
  | Active
  | Email
  | Username
deriving Repr, DecidableEq

/-- The dynamically typed `val interface{}` argument of `SetUserStatus`:
either a `bool` or a `string`. -/
inductive PropVal where
  | b (x : Bool)
  | s (x : String)
deriving Repr, DecidableEq

/-- The record transformation performed by `UserState.SetUserStatus` from
`userstate.go` (main variant) between the `Get` and the `Put`: a `switch` on
`prop` mutating the freshly read record.  `none` models an aborted write —
a panicking `val.(T)` type assertion, a password-policy rejection, or a
bcrypt error — in which case nothing is written back.  Properties without a
`case` (`ConfirmationCode`, `Username`) leave the record unchanged but still
write it back.  Setting `Active` to `true` additionally forces
`Loggedin := false`. -/
def setUserStatusRecord (pwAllowed : String → String → Bool)
    (hashBcrypt : String → Option String) (username : String)
    (user : User) (prop : UserProperty) (val : PropVal) : Option User :=
  match prop, val with
  | .Confirmed, .b x => some { user with confirmed := x }
  | .Email, .s x => some { user with email := x }
  | .Password, .s x =>
    if pwAllowed username x then
      match hashBcrypt x with
      | some h => some { user with password := h }
      | none => none
    else none
  | .Active, .b x =>
    if x then some { user with active := x, loggedin := false }
    else some { user with active := x }
  | .Admin, .b x => some { user with admin := x }
  | .Loggedin, .b x => some { user with loggedin := x }
  | .ConfirmationCode, _ => some user
  | .Username, _ => some user
  | _, _ => none

/-- The Permissions path table (struct `Permissions` in the permission
middleware file): the three prefix lists stored under the `aPaths`, `uPaths`
and `pPaths` keys of the `paths` map, plus the `rootIsPublic` flag.  Paths
are byte/character sequences; `strings.HasPrefix` is `List.isPrefixOf`. -/
structure Permissions where
  adminPaths : List (List Char)
  userPaths : List (List Char)
  publicPaths : List (List Char)
  rootIsPublic : Bool

/-- Modelled from the spec: `UserState.AdminRights` is called by
`Permissions.Rejected` but is not under `src/`.  Per §4.5 step 2, admin
access requires `isLoggedIn && isAdmin`. -/
def adminRights (isLoggedIn isAdmin : Bool) : Bool :=
  isLoggedIn && isAdmin

/-- Modelled from the spec: `UserState.UserRights` is called by
`Permissions.Rejected` but is not under `src/`.  Per §4.5 step 3, user
access requires `isLoggedIn`. -/
def userRights (isLoggedIn : Bool) : Bool :=
  isLoggedIn

/-- Function `Permissions.Rejected`: the decision whether a request for
`path` by a caller with the given login/admin flags is rejected.  The three
`for` loops with `break` reduce to existence checks because the rights of
the caller do not change inside a loop: the admin loop sets `reject` iff
some admin prefix matches and the caller lacks admin rights; the user loop
(only reached when `reject` is still false) likewise for user prefixes; the
final block rejects when no public prefix matches.  Note there is no early
allow after a successful admin-prefix match — control falls through to the
later checks. -/
def rejected (perm : Permissions) (path : List Char) (isLoggedIn isAdmin : Bool) : Bool :=
  if perm.rootIsPublic && path == ['/'] then false
  else if perm.adminPaths.any (fun p => p.isPrefixOf path) && !(adminRights isLoggedIn isAdmin) then
    true
  else if perm.userPaths.any (fun p => p.isPrefixOf path) && !(userRights isLoggedIn) then
    true
  else !(perm.publicPaths.any (fun p => p.isPrefixOf path))

/-- The default path table built by `NewFromUserState`. -/
def defaultPermissions : Permissions where
  adminPaths := [['/', 'a', 'd', 'm', 'i', 'n']]
  userPaths := [['/', 'p', 'r', 'o', 'f', 'i', 'l', 'e', 's'], ['/', 'd', 'a', 't', 'a']]
  publicPaths := [['/'], ['/', 'l', 'o', 'g', 'i', 'n'], ['/', 'r', 'e', 'g', 'i', 's', 't', 'e', 'r']]
  rootIsPublic := true

/-- Error of `GenerateUniqueConfirmationCode` (spec name: ExhaustedAttempts). -/
inductive GenError where
  | exhausted
deriving Repr, DecidableEq

/-- Loop body of `UserState.GenerateUniqueConfirmationCode` from
`userstate.go`: while `isInUse code`, increment the length, regenerate, and
fail once the length exceeds `maxConfirmationCodeLength = 100`.  `gen`
models `randomstring.GenReadable`, one fresh sample per length (each
iteration uses a strictly larger length, so a function of the length is
faithful); `isInUse` models `state.AlreadyHasConfirmationCode` as the pure
uniqueness predicate the spec describes. -/
def genCodeLoop (isInUse : String → Bool) (gen : Nat → String)
    (length : Nat) (code : String) : String × Option GenError :=
  if isInUse code then
    let len := length + 1
    let code' := gen len
    if _h : len > 100 then (code', some .exhausted)
    else genCodeLoop isInUse gen len code'
  else (code, none)
termination_by 101 - length
decreasing_by omega

/-- Function `UserState.GenerateUniqueConfirmationCode` from `userstate.go`:
starts at `minConfirmationCodeLength = 32`. -/
def generateUniqueConfirmationCode (isInUse : String → Bool)
    (gen : Nat → String) : String × Option GenError :=
  genCodeLoop isInUse gen 32 (gen 32)

/-- Modelled from the spec: the case-insensitive comparison of §4.2 (Go
`strings.ToLower`, an external stdlib function), restricted to the ASCII
letters that the policy's inputs use. -/
def asciiLowerChar (c : Char) : Char :=
  if 'A' ≤ c ∧ c ≤ 'Z' then Char.ofNat (c.toNat + 32) else c

/-- Modelled from the spec: `randomstring.LevenshteinDistance` is called by
`IsPasswordAllowed` but its source is not under `src/`; per §4.2 this is the
Levenshtein edit distance, given here by the textbook recursion. -/
def levenshteinDistance : List Char → List Char → Nat
  | [], ys => ys.length
  | x :: xs, [] => (x :: xs).length
  | x :: xs, y :: ys =>
    if x = y then levenshteinDistance xs ys
    else 1 + min (levenshteinDistance xs (y :: ys))
      (min (levenshteinDistance (x :: xs) ys) (levenshteinDistance xs ys))
termination_by xs ys => xs.length + ys.length

/-- ASCII alphanumeric class: the Go regexp POSIX class `[[:alnum:]]`. -/
def isAlnumAscii (c : Char) : Bool :=
  ('0' ≤ c && c ≤ '9') || ('A' ≤ c && c ≤ 'Z') || ('a' ≤ c && c ≤ 'z')

/-- The special-character set of `IsPasswordAllowed` (`"!#$%&*+-?@^_~"`). -/
def specialChars : List Char :=
  ['!', '#', '$', '%', '&', '*', '+', '-', '?', '@', '^', '_', '~']

/-- The distinct rejection kinds of `IsPasswordAllowed` from `hashing.go`. -/
inductive PwError where
  | equal
  | distance
  | short
  | alnum
  | special
deriving Repr, DecidableEq

/-- Function `IsPasswordAllowed` from `hashing.go` (the legacy copy in
`userstate.go` is identical): the checks in source order — case-insensitive
equality, edit distance below `len(password) - len(password)/4`, minimum
length 9, at least one `[[:alnum:]]` character (`rex.Match` holds iff some
character is alphanumeric), at least one special character
(`strings.ContainsAny` over the single-element `characters` list).  `none`
means the password is allowed. -/
def isPasswordAllowed (username password : List Char) : Option PwError :=
  let usern := username.map asciiLowerChar
  let passw := password.map asciiLowerChar
  if usern = passw then some .equal
  else if levenshteinDistance usern passw < password.length - password.length / 4 then
    some .distance
  else if password.length < 9 then some .short
  else if !(password.any isAlnumAscii) then some .alnum
  else if !(password.any (fun c => specialChars.contains c)) then some .special
  else none

/-- The standard base64 alphabet (`encoding/base64` StdEncoding), as byte
values: `A`–`Z`, `a`–`z`, `0`–`9`, `+`, `/`. -/
def b64alphabet : List Nat :=
  [65, 66, 67, 68, 69, 70, 71, 72, 73, 74, 75, 76, 77, 78, 79, 80, 81, 82,
   83, 84, 85, 86, 87, 88, 89, 90,
   97, 98, 99, 100, 101, 102, 103, 104, 105, 106, 107, 108, 109, 110, 111,
   112, 113, 114, 115, 116, 117, 118, 119, 120, 121, 122,
   48, 49, 50, 51, 52, 53, 54, 55, 56, 57, 43, 47]

/-- Byte of the base64 symbol with the given 6-bit value. -/
def b64enc (n : Nat) : Nat :=
  b64alphabet.getD n 65

/-- The 6-bit value of a base64 symbol byte, if any. -/
def b64index (c : Nat) : Option Nat :=
  b64alphabet.findIdx? (fun a => a == c)

/-- The padding byte `=` (61) and the delimiter byte `|` (124). -/
def padByte : Nat := 61

/-- Delimiter byte of the cookie token, `|`. -/
def pipeByte : Nat := 124

/-- Base64 encoding of a byte sequence with `=` padding, modelling Go's
`base64.StdEncoding` encoder used by `bcookie` (shift/mask arithmetic
written with `/` and `%` on `Nat`). -/
def b64encode : List Nat → List Nat
  | [] => []
  | [a] => [b64enc (a / 4), b64enc (a % 4 * 16), padByte, padByte]
  | [a, b] => [b64enc (a / 4), b64enc (a % 4 * 16 + b / 16), b64enc (b % 16 * 4), padByte]
  | a :: b :: c :: rest =>
    b64enc (a / 4) :: b64enc (a % 4 * 16 + b / 16) ::
      b64enc (b % 16 * 4 + c / 64) :: b64enc (c % 64) :: b64encode rest

/-- Base64 decoding of a well-formed padded base64 byte sequence, modelling
Go's `base64.StdEncoding` decoder used by `bcookie`; `none` models the
decode error on malformed input. -/
def b64decode : List Nat → Option (List Nat)
  | [] => some []
  | w :: x :: y :: z :: rest =>
    if rest.isEmpty && y == padByte && z == padByte then
      match b64index w, b64index x with
      | some a, some b => some [a * 4 + b / 16]
      | _, _ => none
    else if rest.isEmpty && z == padByte then
      match b64index w, b64index x, b64index y with
      | some a, some b, some c => some [a * 4 + b / 16, b % 16 * 16 + c / 4]
      | _, _, _ => none
    else
      match b64index w, b64index x, b64index y, b64index z, b64decode rest with
      | some a, some b, some c, some d, some ds =>
        some ((a * 4 + b / 16) :: (b % 16 * 16 + c / 4) :: (c % 4 * 64 + d) :: ds)
      | _, _, _, _, _ => none
  | _ => none

/-- Decimal formatting of a timestamp (`strconv.FormatInt(ts, 10)` for the
non-negative values produced by `time.Now().Unix()`), as digit bytes. -/
def formatDec (n : Nat) : List Nat :=
  if n = 0 then [48] else ((Nat.digits 10 n).map (fun d => 48 + d)).reverse

/-- Value of a decimal digit byte, if it is one. -/
def decDigit (c : Nat) : Option Nat :=
  if 48 ≤ c ∧ c ≤ 57 then some (c - 48) else none

/-- Accumulating decimal parser over digit bytes; `none` on a non-digit. -/
def parseDecGo (acc : Nat) : List Nat → Option Nat
  | [] => some acc
  | c :: cs =>
    match decDigit c with
    | some d => parseDecGo (acc * 10 + d) cs
    | none => none

/-- Timestamp parsing as done in `Secure.Get`: `ts, _ := strconv.ParseInt(
timestamp, 0, 64)` with the error discarded, so a failed parse leaves `ts`
at `0`.  Modelled for the plain decimal strings `FormatInt` produces (base
0 only changes the handling of `0x`/`0` prefixes, which such strings do not
carry). -/
def parseDecOrZero (s : List Nat) : Nat :=
  if s = [] then 0 else (parseDecGo 0 s).getD 0

/-- Everything up to the first occurrence of `sep`, and the remainder after
it if `sep` occurs. -/
def splitFirst (sep : Nat) : List Nat → List Nat × Option (List Nat)
  | [] => ([], none)
  | c :: cs =>
    if c = sep then ([], some cs)
    else
      let r := splitFirst sep cs
      (c :: r.1, r.2)

/-- Go's `strings.SplitN(s, sep, 3)`: at most two splits, the third part
keeping any further separators. -/
def splitN3 (sep : Nat) (s : List Nat) : List (List Nat) :=
  match splitFirst sep s with
  | (a, none) => [a]
  | (a, some rest) =>
    match splitFirst sep rest with
    | (b, none) => [a, b]
    | (b, some rest2) => [a, b, rest2]

/-- Error values that `Secure.Get` can actually return once the cookie has
been read from the request: only the base64 decode error is a live error
value; the malformed / signature-mismatch / expired branches return the
`err` variable, which is `nil` at those points. -/
inductive GetError where
  | base64Error
deriving Repr, DecidableEq

/-- The token built by `Secure.SetPath` from `bcookie/bcookie.go`:
`base64(payload) | unixTimestamp | signature` joined with `|`.  `sigFn`
models the external keyed `getSignature` (hex of HMAC-SHA1 over the base64
payload and the timestamp bytes, keyed by the secret).  An empty secret is
refused.  `expirationTime` (the ttl, `s.ExpirationTime`) only shapes the
transport cookie's `Expires` attribute and never enters the token value. -/
def secureSetPathToken (sigFn : List Nat → List Nat → List Nat → List Nat)
    (secret : List Nat) (_expirationTime : Nat) (encTime : Nat)
    (payload : List Nat) : Option (List Nat) :=
  if secret.length = 0 then none
  else
    let encoded := b64encode payload
    let ts := formatDec encTime
    some (encoded ++ pipeByte :: (ts ++ pipeByte :: sigFn secret encoded ts))

/-- Function `Secure.Get` from `bcookie/bcookie.go`, applied to the raw
cookie value (the `req.Cookie` lookup has succeeded, so the local `err` is
`nil`).  Mirrors the source exactly: split into at most 3 parts on `|`;
fewer than 3 parts, a signature mismatch, or a stale timestamp return
`("", err)` — and `err` is `nil` there; the freshness check
`now - 31*86400 > ts` is written overflow-free as `now > ts + 31*86400`;
only a base64 failure returns a non-nil error. -/
def secureGet (sigFn : List Nat → List Nat → List Nat → List Nat)
    (secret : List Nat) (now : Nat) (cookieVal : List Nat) :
    List Nat × Option GetError :=
  match splitN3 pipeByte cookieVal with
  | [val, ts, sig] =>
    if sigFn secret val ts ≠ sig then ([], none)
    else if now > parseDecOrZero ts + 31 * 86400 then ([], none)
    else
      match b64decode val with
      | none => ([], some .base64Error)
      | some decoded => (decoded, none)
  | _ => ([], none)

/-- The user record added by the test suites (`TestAddUser` in the legacy
`userstate_test.go`): registered with the plaintext password `"4321"`. -/
def carloPlain : User where
  email := "carlo@mail.com"
  username := "hunter1"
  name := "carlo"
  lastName := ""
  password := "4321"
  photoUrl := ""
  confirmed := false
  confirmationCode := "1345"
  admin := false
  loggedin := false
  active := false

/-- A user whose stored credential is a legacy sha256-style hex digest:
64 characters, the fixed length the `bcrypt+` heuristic of the spec keys
on. -/
def sha256User : User where
  email := "bob@zombo.com"
  username := "bob"
  name := "bob"
  lastName := ""
  password := String.mk (List.replicate 64 'a')
  photoUrl := ""
  confirmed := true
  confirmationCode := ""
  admin := false
  loggedin := false
  active := true

/-! ## Theorems -/

/-- C10: with the recognized configuration value `"sha256"`, the password
check `checkUserPassword` returns `false` for every store, every bcrypt
primitive, every username and every password — the algorithm `switch` has
no `"sha256"` case, so that configuration rejects every password. -/
theorem checkUserPassword_sha256_always_false (store : Store)
    (bcryptVerify : String → String → Bool) (username password : String) :
    checkUserPassword store "sha256" bcryptVerify username password = false := by
  unfold checkUserPassword
  cases store username with
  | none => rfl
  | some user =>
    by_cases hp : user.password.length = 0 <;> simp [hp]

/-- C2 (divergence from the code): under `bcrypt+` the stored hash of
`sha256User` is sha256-shaped (length 64), yet `checkUserPassword` hands it
straight to the bcrypt primitive for every choice of that primitive — there
is no shape heuristic and no sha256 verification path — whereas the
spec-modelled `specBcryptPlusVerify` would verify it through the sha256
scheme.  So a legacy sha256-produced hash does not verify under the code. -/
theorem checkUserPassword_bcryptPlus_ignores_sha256
    (bcryptVerify sha256Verify : String → String → Bool) (password : String) :
    sha256User.password.length = 64 ∧
    checkUserPassword (fun u => if u = "bob" then some sha256User else none) "bcrypt+"
      bcryptVerify "bob" password = bcryptVerify sha256User.password password ∧
    specBcryptPlusVerify sha256Verify bcryptVerify sha256User.password password =
      sha256Verify sha256User.password password := by
  have hlen : sha256User.password.length = 64 := by decide
  refine ⟨hlen, ?_, ?_⟩
  · unfold checkUserPassword
    simp [hlen]
  · unfold specBcryptPlusVerify
    simp [hlen]

/-- C3 (evaluation at the failing input): the legacy `UserState.AddUser`
persists the caller's record untouched, so after registering `carloPlain`
the stored `Password` field is the caller-supplied plaintext `"4321"`,
not a hash. -/
theorem addUserLegacy_stores_plaintext :
    (addUserLegacy (fun _ => none) carloPlain) "carlo@mail.com" = some carloPlain ∧
    carloPlain.password = "4321" :=
  ⟨rfl, rfl⟩

/-- C8 (counterexample): `SetUserStatus` with the `Active` property and value
`true`, applied to a record that was read with `Loggedin = true`, writes back
a record in which `Loggedin` has also changed to `false` — two fields differ
from the record that was read, not only the one identified by `prop`. -/
theorem setUserStatus_active_counterexample :
    setUserStatusRecord (fun _ _ => true) (fun s => some s) "hunter1"
      { carloPlain with loggedin := true } .Active (.b true) =
      some { carloPlain with active := true, loggedin := false } ∧
    ({ carloPlain with loggedin := true } : User).loggedin = true ∧
    ({ carloPlain with active := true, loggedin := false } : User).loggedin = false :=
  ⟨rfl, rfl, rfl⟩

/-- C8 (amended): whenever `SetUserStatus` writes back a record, every field
other than the one identified by `prop` is unchanged — with one exception
forced by the counterexample: setting `Active` to `true` also forces
`Loggedin` to `false`.  Properties without a `switch` case (`Username`,
`ConfirmationCode`) change nothing. -/
theorem setUserStatus_frame (pwAllowed : String → String → Bool)
    (hashBcrypt : String → Option String) (username : String)
    (user u' : User) (prop : UserProperty) (val : PropVal)
    (h : setUserStatusRecord pwAllowed hashBcrypt username user prop val = some u') :
    u'.username = user.username ∧ u'.name = user.name ∧ u'.lastName = user.lastName ∧
    u'.photoUrl = user.photoUrl ∧ u'.confirmationCode = user.confirmationCode ∧
    (prop ≠ .Email → u'.email = user.email) ∧
    (prop ≠ .Confirmed → u'.confirmed = user.confirmed) ∧
    (prop ≠ .Password → u'.password = user.password) ∧
    (prop ≠ .Active → u'.active = user.active) ∧
    (prop ≠ .Admin → u'.admin = user.admin) ∧
    (prop ≠ .Loggedin → ¬(prop = .Active ∧ val = .b true) → u'.loggedin = user.loggedin) := by
  cases prop <;> cases val <;>
    simp only [setUserStatusRecord, Option.some.injEq, reduceCtorEq] at h <;>
    try (subst h; simp)
  case Password.s x =>
    rw [eq_comm] at h
    split at h
    · split at h
      · simp_all
      · simp_all
    · simp_all
  case Active.b x =>
    rw [eq_comm] at h
    split at h <;> simp_all

/-- Witness for `setUserStatus_frame`: a concrete `Confirmed` update keeps
the stored password unchanged. -/
theorem setUserStatus_frame_witness :
    ({ carloPlain with confirmed := true } : User).password = carloPlain.password :=
  (setUserStatus_frame (fun _ _ => true) (fun s => some s) "hunter1" carloPlain
    { carloPlain with confirmed := true } .Confirmed (.b true) rfl).2.2.2.2.2.2.2.1
    (by decide)

/-- C4 (counterexample): with the permission table holding admin prefix
`/admin`, no user prefixes and no public prefixes, a logged-in administrator
requesting `/admin` is rejected — the admin-prefix match is not
authoritative for allowing: evaluation continues into the default-closed
public check. -/
theorem rejected_admin_counterexample :
    rejected ⟨[['/', 'a', 'd', 'm', 'i', 'n']], [], [], true⟩
      ['/', 'a', 'd', 'm', 'i', 'n'] true true = true := by
  decide

/-- C4 (amended): for a non-root path that matches some admin prefix, the
decision of `Rejected` is: deny whenever the caller is not a logged-in admin
(that direction is authoritative and later prefixes cannot save the
request), but for a logged-in admin the admin match does not stop
evaluation — the request is allowed iff the path also matches some public
prefix (the user-prefix stage never rejects a logged-in caller), and denied
otherwise (default-closed). -/
theorem rejected_admin_prefix_characterization (perm : Permissions)
    (path : List Char) (isLoggedIn isAdmin : Bool)
    (hroot : (perm.rootIsPublic && path == ['/']) = false)
    (hadmin : perm.adminPaths.any (fun p => p.isPrefixOf path) = true) :
    rejected perm path isLoggedIn isAdmin =
      (!(isLoggedIn && isAdmin) ||
        !(perm.publicPaths.any (fun p => p.isPrefixOf path))) := by
  unfold rejected adminRights userRights
  cases isLoggedIn <;> cases isAdmin <;> simp [hroot, hadmin]

/-- Witness for `rejected_admin_prefix_characterization`: the default table,
path `/admin`, a logged-in non-admin. -/
theorem rejected_admin_prefix_characterization_witness :
    rejected defaultPermissions ['/', 'a', 'd', 'm', 'i', 'n'] true false =
      (!(true && false) ||
        !(defaultPermissions.publicPaths.any
          (fun p => p.isPrefixOf ['/', 'a', 'd', 'm', 'i', 'n']))) :=
  rejected_admin_prefix_characterization defaultPermissions
    ['/', 'a', 'd', 'm', 'i', 'n'] true false (by decide) (by decide)

/-- Helper for C6: a loop result carrying no error is a code the predicate
rejects. -/
theorem genCodeLoop_none (isInUse : String → Bool) (gen : Nat → String) :
    ∀ length code c, genCodeLoop isInUse gen length code = (c, none) →
      isInUse c = false := by
  intro length code
  induction length, code using genCodeLoop.induct isInUse gen with
  | case1 length code hin len hlen =>
    intro c h
    rw [genCodeLoop] at h
    simp [hin, hlen] at h
  | case2 length code hin len code' hnot ih =>
    intro c h
    rw [genCodeLoop] at h
    simp only [hin, hnot, if_true, dite_eq_ite, if_false] at h
    exact ih c h
  | case3 length code hin =>
    intro c h
    rw [genCodeLoop, if_neg hin] at h
    cases h
    simpa using hin

/-- Helper for C6: with a predicate that is constantly true the loop always
ends in the exhaustion error. -/
theorem genCodeLoop_exhausts (isInUse : String → Bool) (gen : Nat → String)
    (hall : ∀ s, isInUse s = true) :
    ∀ length code, (genCodeLoop isInUse gen length code).2 = some GenError.exhausted := by
  intro length code
  induction length, code using genCodeLoop.induct isInUse gen with
  | case1 length code hin len hlen =>
    rw [genCodeLoop]
    simp [hin, hlen]
  | case2 length code hin len code' hnot ih =>
    rw [genCodeLoop]
    simp only [hin, hnot, if_true, dite_eq_ite, if_false]
    exact ih
  | case3 length code hin =>
    exact absurd (hall code) hin

/-- C6: confirmation-code generation never returns, without error, a code the
supplied `isInUse` predicate holds for; and if the predicate is constantly
true it terminates with the exhaustion error once the length passes the hard
ceiling 100. -/
theorem generateUniqueConfirmationCode_spec (isInUse : String → Bool)
    (gen : Nat → String) :
    (∀ c, generateUniqueConfirmationCode isInUse gen = (c, none) → isInUse c = false) ∧
    ((∀ s, isInUse s = true) →
      (generateUniqueConfirmationCode isInUse gen).2 = some GenError.exhausted) :=
  ⟨fun c h => genCodeLoop_none isInUse gen 32 (gen 32) c h,
   fun hall => genCodeLoop_exhausts isInUse gen hall 32 (gen 32)⟩

/-- Witness for `generateUniqueConfirmationCode_spec`: the constantly-true
predicate exhausts. -/
theorem generateUniqueConfirmationCode_spec_witness :
    (generateUniqueConfirmationCode (fun _ => true) (fun _ => "x")).2 =
      some GenError.exhausted :=
  (generateUniqueConfirmationCode_spec (fun _ => true) (fun _ => "x")).2 (fun _ => rfl)

/-- C7: for inputs that are not case-insensitively equal, the policy rejects
with the too-similar error exactly when the case-insensitive edit distance
is below `len(password) - len(password)/4`; the bound holds regardless of
the later checks, in particular a too-short password that is too similar is
reported as too similar, so the similarity check precedes the length
check. -/
theorem isPasswordAllowed_distance_iff (u p : List Char)
    (h : u.map asciiLowerChar ≠ p.map asciiLowerChar) :
    isPasswordAllowed u p = some PwError.distance ↔
      levenshteinDistance (u.map asciiLowerChar) (p.map asciiLowerChar) <
        p.length - p.length / 4 := by
  simp only [isPasswordAllowed]
  rw [if_neg h]
  split_ifs with h1 h2 h3 h4 <;> simp_all

/-- Witness for `isPasswordAllowed_distance_iff` at a concrete pair. -/
theorem isPasswordAllowed_distance_iff_witness :
    isPasswordAllowed ['a'] ['b'] = some PwError.distance ↔
      levenshteinDistance (['a'].map asciiLowerChar) (['b'].map asciiLowerChar) <
        (['b'] : List Char).length - (['b'] : List Char).length / 4 :=
  isPasswordAllowed_distance_iff ['a'] ['b'] (by decide)

/-- Base64 symbols with a 6-bit value decode back to that value. -/
theorem b64index_enc : ∀ n < 64, b64index (b64enc n) = some n := by decide

/-- Base64 symbols are never the padding byte. -/
theorem b64enc_ne_pad (n : Nat) : b64enc n ≠ padByte := by
  by_cases h : n < 64
  · exact (by decide : ∀ m < 64, b64enc m ≠ padByte) n h
  · unfold b64enc
    rw [List.getD_eq_default]
    · decide
    · simp only [b64alphabet, List.length]
      omega

/-- Base64 symbols are never the delimiter byte. -/
theorem b64enc_ne_pipe (n : Nat) : b64enc n ≠ pipeByte := by
  by_cases h : n < 64
  · exact (by decide : ∀ m < 64, b64enc m ≠ pipeByte) n h
  · unfold b64enc
    rw [List.getD_eq_default]
    · decide
    · simp only [b64alphabet, List.length]
      omega

/-- A base64 encoding never contains the delimiter byte. -/
theorem pipe_not_mem_b64encode (l : List Nat) : pipeByte ∉ b64encode l := by
  induction l using b64encode.induct with
  | case1 => simp [b64encode]
  | case2 a =>
    simp only [b64encode, List.mem_cons, List.not_mem_nil, or_false]
    rintro (h | h | h | h) <;>
      first
      | exact b64enc_ne_pipe _ h.symm
      | exact absurd h.symm (by decide)
  | case3 a b =>
    simp only [b64encode, List.mem_cons, List.not_mem_nil, or_false]
    rintro (h | h | h | h) <;>
      first
      | exact b64enc_ne_pipe _ h.symm
      | exact absurd h.symm (by decide)
  | case4 a b c rest ih =>
    simp only [b64encode, List.mem_cons]
    rintro (h | h | h | h | h) <;>
      first
      | exact b64enc_ne_pipe _ h.symm
      | exact ih h

/-- Decimal digit bytes are in `48..57`, so never the delimiter byte. -/
theorem pipe_not_mem_formatDec (n : Nat) : pipeByte ∉ formatDec n := by
  unfold formatDec
  split
  · decide
  · intro h
    rw [List.mem_reverse, List.mem_map] at h
    obtain ⟨d, hd, hEq⟩ := h
    have : d < 10 := Nat.digits_lt_base (by norm_num) hd
    simp only [pipeByte] at hEq
    omega

/-- Parsing distributes over list append. -/
theorem parseDecGo_append (l1 : List Nat) : ∀ (acc : Nat) (l2 : List Nat),
    parseDecGo acc (l1 ++ l2) =
      (parseDecGo acc l1).bind (fun a => parseDecGo a l2) := by
  induction l1 with
  | nil => intro acc l2; rfl
  | cons c cs ih =>
    intro acc l2
    simp only [List.cons_append, parseDecGo]
    cases hc : decDigit c with
    | none => rfl
    | some d => exact ih _ l2

/-- Parsing the reversed digit-byte rendering of a digit list accumulates
its value. -/
theorem parseDecGo_digits : ∀ ds : List Nat, (∀ d ∈ ds, d < 10) →
    ∀ acc : Nat,
      parseDecGo acc ((ds.map (fun d => 48 + d)).reverse) =
        some (acc * 10 ^ ds.length + Nat.ofDigits 10 ds) := by
  intro ds
  induction ds with
  | nil => intro _ acc; simp [parseDecGo, Nat.ofDigits_nil]
  | cons d ds ih =>
    intro hds acc
    have hd : d < 10 := hds d (by simp)
    have hds' : ∀ x ∈ ds, x < 10 := fun x hx => hds x (by simp [hx])
    have hdig : decDigit (48 + d) = some d := by
      unfold decDigit
      rw [if_pos ⟨by omega, by omega⟩]
      congr 1
      omega
    simp only [List.map_cons, List.reverse_cons]
    rw [parseDecGo_append, ih hds' acc]
    simp only [Option.some_bind, Option.bind_some, parseDecGo, hdig, Option.some.injEq,
      List.length_cons, Nat.ofDigits_cons, pow_succ]
    ring

/-- Decimal round trip: `ParseInt` recovers what `FormatInt` rendered. -/
theorem parseDec_format (n : Nat) : parseDecOrZero (formatDec n) = n := by
  unfold parseDecOrZero formatDec
  by_cases h : n = 0
  · subst h
    rfl
  · rw [if_neg h]
    have hne : ((Nat.digits 10 n).map (fun d => 48 + d)).reverse ≠ [] := by
      simp [Nat.digits_ne_nil_iff_ne_zero.mpr h]
    rw [if_neg hne,
      parseDecGo_digits (Nat.digits 10 n)
        (fun d hd => Nat.digits_lt_base (by norm_num) hd) 0]
    simp [Nat.ofDigits_digits]

/-- Splitting a list that avoids the separator leaves it whole. -/
theorem splitFirst_not_mem (sep : Nat) : ∀ l : List Nat, sep ∉ l →
    splitFirst sep l = (l, none) := by
  intro l
  induction l with
  | nil => intro _; rfl
  | cons c cs ih =>
    intro h
    have h1 : ¬(c = sep) := fun hc => h (hc ▸ List.mem_cons_self c cs)
    simp only [splitFirst]
    rw [if_neg h1, ih (fun hm => h (List.mem_cons_of_mem c hm))]

/-- Splitting at the first separator occurrence. -/
theorem splitFirst_append (sep : Nat) : ∀ a rest : List Nat, sep ∉ a →
    splitFirst sep (a ++ sep :: rest) = (a, some rest) := by
  intro a
  induction a with
  | nil =>
    intro rest _
    simp [splitFirst]
  | cons c cs ih =>
    intro rest h
    have h1 : ¬(c = sep) := fun hc => h (hc ▸ List.mem_cons_self c cs)
    simp only [List.cons_append, splitFirst, List.append_eq]
    rw [if_neg h1, ih rest (fun hm => h (List.mem_cons_of_mem c hm))]

/-- A three-component join splits back into exactly its components when the
first two avoid the separator (the third keeps any later separators, as with
`SplitN(..., 3)`). -/
theorem splitN3_exact (sep : Nat) (a b c : List Nat) (ha : sep ∉ a)
    (hb : sep ∉ b) : splitN3 sep (a ++ sep :: (b ++ sep :: c)) = [a, b, c] := by
  unfold splitN3
  rw [splitFirst_append sep a _ ha]
  simp only
  rw [splitFirst_append sep b c hb]

/-- Base64 round trip: decoding an encoding returns the original bytes. -/
theorem b64decode_encode : ∀ l : List Nat, (∀ b ∈ l, b < 256) →
    b64decode (b64encode l) = some l := by
  intro l
  induction l using b64encode.induct with
  | case1 => intro _; rfl
  | case2 a =>
    intro h
    have ha : a < 256 := h a (by simp)
    simp only [b64encode, b64decode, List.isEmpty_nil, beq_self_eq_true, Bool.and_self,
      Bool.and_true, Bool.true_and, if_true]
    rw [b64index_enc (a / 4) (by omega), b64index_enc (a % 4 * 16) (by omega)]
    simp only [Option.some.injEq, List.cons.injEq, and_true]
    omega
  | case3 a b =>
    intro h
    have ha : a < 256 := h a (by simp)
    have hb : b < 256 := h b (by simp)
    have hy : (b64enc (b % 16 * 4) == padByte) = false :=
      beq_eq_false_iff_ne.mpr (b64enc_ne_pad _)
    simp only [b64encode, b64decode, List.isEmpty_nil, beq_self_eq_true, hy,
      Bool.and_self, Bool.and_true, Bool.true_and, Bool.and_false, Bool.false_and,
      if_false, if_true, Bool.false_eq_true]
    rw [b64index_enc (a / 4) (by omega), b64index_enc (a % 4 * 16 + b / 16) (by omega),
      b64index_enc (b % 16 * 4) (by omega)]
    simp only [Option.some.injEq, List.cons.injEq, and_true]
    constructor <;> omega
  | case4 a b c rest ih =>
    intro h
    have ha : a < 256 := h a (by simp)
    have hb : b < 256 := h b (by simp)
    have hc : c < 256 := h c (by simp)
    have hrest : ∀ x ∈ rest, x < 256 := fun x hx => h x (by simp [hx])
    have hy : (b64enc (b % 16 * 4 + c / 64) == padByte) = false :=
      beq_eq_false_iff_ne.mpr (b64enc_ne_pad _)
    have hz : (b64enc (c % 64) == padByte) = false :=
      beq_eq_false_iff_ne.mpr (b64enc_ne_pad _)
    simp only [b64encode, b64decode, hy, hz, Bool.and_false, Bool.false_and,
      if_false, Bool.false_eq_true]
    rw [b64index_enc (a / 4) (by omega), b64index_enc (a % 4 * 16 + b / 16) (by omega),
      b64index_enc (b % 16 * 4 + c / 64) (by omega), b64index_enc (c % 64) (by omega),
      ih hrest]
    simp only [Option.some.injEq, List.cons.injEq, and_true]
    exact ⟨by omega, by omega, by omega⟩

/-- C1: a token minted by `Secure.SetPath` decodes through `Secure.Get`, under
the same non-empty secret, back to the original payload — for every payload,
every ttl (`ttl` never enters the token), and every decoding time within the
31-day freshness window of the encoding time. -/
theorem secure_token_roundtrip
    (sigFn : List Nat → List Nat → List Nat → List Nat)
    (secret payload : List Nat) (ttl encTime now : Nat)
    (hsec : secret.length ≠ 0) (hbytes : ∀ b ∈ payload, b < 256)
    (hfresh : now ≤ encTime + 31 * 86400) :
    ∃ token, secureSetPathToken sigFn secret ttl encTime payload = some token ∧
      secureGet sigFn secret now token = (payload, none) := by
  refine ⟨b64encode payload ++ pipeByte :: (formatDec encTime ++ pipeByte ::
    sigFn secret (b64encode payload) (formatDec encTime)), ?_, ?_⟩
  · unfold secureSetPathToken
    rw [if_neg hsec]
  · unfold secureGet
    rw [splitN3_exact pipeByte _ _ _ (pipe_not_mem_b64encode payload)
      (pipe_not_mem_formatDec encTime)]
    simp only
    rw [if_neg (fun hne => hne rfl), parseDec_format,
      if_neg (by omega : ¬ now > encTime + 31 * 86400),
      b64decode_encode payload hbytes]

/-- Witness for `secure_token_roundtrip` at concrete inputs. -/
theorem secure_token_roundtrip_witness :
    ∃ token,
      secureSetPathToken (fun _ _ _ => [48]) [115] 0 5 [104, 105] = some token ∧
      secureGet (fun _ _ _ => [48]) [115] 6 token = ([104, 105], none) :=
  secure_token_roundtrip (fun _ _ _ => [48]) [115] [104, 105] 0 5 6
    (by decide) (by decide) (by omega)

/-- C5 (evaluation at the failing input): the cookie value `"abc"` splits
into one part, not three, and `Secure.Get` then returns the empty payload
together with a `nil` error — the `err` variable returned on that branch is
the `nil` left over from the successful cookie lookup, so no
`InvalidTokenFormat`-style error value reaches the caller. -/
theorem secureGet_malformed_nil_error :
    splitN3 pipeByte [97, 98, 99] = [[97, 98, 99]] ∧
    secureGet (fun _ _ _ => []) [115] 0 [97, 98, 99] = ([], none) :=
  ⟨rfl, rfl⟩

end Bperm
